import Mathlib

/-
Verification of the encointer ceremonies runtime module
(src/runtime/src/encointer_ceremonies.rs).

The module is shallowly embedded: the Substrate storage maps become
functions from keys to `Option` values (a read of an absent key yields
`none`, and the module getters substitute the value type default, exactly
as the underlying key/value store does), machine integers become `Nat`
with explicit `% 2 ^ w` or checked-add conditions at the points where the
source uses wrapping or checked arithmetic, and dispatchable calls become
functions `Ceremonies → Except String Ceremonies` (an error models the
transactional rollback: no writes persist).

The signature scheme is an external collaborator of the module (the source
parameterises over a signature trait); definitions that need it take an
abstract signature type `Sig` and a verification capability
`verify : Sig → List Nat → AccountId → Bool` as parameters, applied to the
deterministic field-order encoding of the claim.
-/

/-- Account identities are opaque, ordered and hashable in the source; they
are modelled as natural numbers. The default account (returned by the
store for an absent key) is `0`. -/
abbrev AccountId := Nat

/-- Phase type of the ceremony state machine, from the source enum
`CeremonyPhaseType`; the default is `REGISTERING`. -/
inductive CeremonyPhaseType where
  | REGISTERING
  | ASSIGNING
  | WITNESSING
deriving DecidableEq

/-- Source struct `ClaimOfAttendance<AccountId>`: ceremony index is a u32,
meetup index a u64, the confirmed participant count a u32. -/
structure ClaimOfAttendance where
  claimant_public : AccountId
  ceremony_index : Nat
  meetup_index : Nat
  number_of_participants_confirmed : Nat
deriving DecidableEq

/-- Source struct `Witness<Signature, AccountId>`; the signature type is the
abstract parameter of the module. -/
structure Witness (Sig : Type) where
  claim : ClaimOfAttendance
  signature : Sig
  public : AccountId
deriving DecidableEq

/-- Little-endian byte encoding of a u32, as SCALE encodes the claim fields. -/
def encodeU32LE (n : Nat) : List Nat :=
  [n % 256, n / 256 % 256, n / 65536 % 256, n / 16777216 % 256]

/-- Little-endian byte encoding of a u64. -/
def encodeU64LE (n : Nat) : List Nat :=
  encodeU32LE (n % 4294967296) ++ encodeU32LE (n / 4294967296)

/-- Deterministic encoding of a claim in field order, as the source's
`claim.encode()` (SCALE): claimant account, then ceremony index (LE u32),
meetup index (LE u64), confirmed count (LE u32). The opaque account id is
abstracted to a single symbol of the message alphabet. -/
def encodeClaim (c : ClaimOfAttendance) : List Nat :=
  c.claimant_public ::
    (encodeU32LE c.ceremony_index ++ encodeU64LE c.meetup_index ++
      encodeU32LE c.number_of_participants_confirmed)

/-- Events deposited by the module (source `decl_event`). -/
inductive CeremonyEvent where
  | PhaseChangedTo (p : CeremonyPhaseType)
  | ParticipantRegistered (a : AccountId)
deriving DecidableEq

/-- The module storage, from the source `decl_storage` block. Double maps
are functions from `(outer key, inner key)` to `Option` values; `none`
models an absent key. All outer keys are ceremony indices; inner keys are
participant positions, meetup indices, witness indices or accounts
(accounts are naturals, so every key is a pair of naturals). Balances are
the external balance ledger (`free_balance` of an untouched account is 0). -/
structure Ceremonies where
  participantRegistry : Nat × Nat → Option AccountId
  participantIndexOf : Nat × AccountId → Option Nat
  participantCount : Nat
  meetupRegistry : Nat × Nat → Option (List AccountId)
  meetupIndexOf : Nat × AccountId → Option Nat
  meetupCount : Nat
  witnessRegistry : Nat × Nat → Option (List AccountId)
  witnessIndexOf : Nat × AccountId → Option Nat
  witnessCount : Nat
  meetupParticipantCountVote : Nat × AccountId → Option Nat
  currentCeremonyIndex : Nat
  currentPhase : CeremonyPhaseType
  ceremonyReward : Nat
  ceremonyMaster : AccountId
  balances : AccountId → Nat

/-- Store read: an absent key yields the value type default. -/
def storGet {ν : Type} (m : Nat × Nat → Option ν) (k : Nat × Nat) (d : ν) : ν :=
  (m k).getD d

/-- Store write. -/
def storPut {ν : Type} (m : Nat × Nat → Option ν) (k : Nat × Nat) (v : ν) :
    Nat × Nat → Option ν :=
  fun q => if q = k then some v else m q

/-- Store `remove_prefix`: delete every pair under the given outer key. -/
def storRemoveOuter {ν : Type} (m : Nat × Nat → Option ν) (c : Nat) :
    Nat × Nat → Option ν :=
  fun q => if q.1 = c then none else m q

/-- Getter `participant_registry` (default account on absent key). -/
def participant_registry (s : Ceremonies) (c p : Nat) : AccountId :=
  storGet s.participantRegistry (c, p) 0

/-- Getter `participant_index` (0 means absent; indices are 1-based). -/
def participant_index (s : Ceremonies) (c : Nat) (a : AccountId) : Nat :=
  storGet s.participantIndexOf (c, a) 0

/-- Getter `meetup_registry` (empty list on absent key). -/
def meetup_registry (s : Ceremonies) (c m : Nat) : List AccountId :=
  storGet s.meetupRegistry (c, m) []

/-- Getter `meetup_index` (0 means absent; indices are 1-based). -/
def meetup_index (s : Ceremonies) (c : Nat) (a : AccountId) : Nat :=
  storGet s.meetupIndexOf (c, a) 0

/-- Getter `witness_registry` (empty list on absent key). -/
def witness_registry (s : Ceremonies) (c w : Nat) : List AccountId :=
  storGet s.witnessRegistry (c, w) []

/-- Getter `witness_index` (0 means absent; indices are 1-based). -/
def witness_index (s : Ceremonies) (c : Nat) (a : AccountId) : Nat :=
  storGet s.witnessIndexOf (c, a) 0

/-- Getter `meetup_participant_count_vote` (0 on absent key). -/
def meetup_participant_count_vote (s : Ceremonies) (c : Nat) (a : AccountId) : Nat :=
  storGet s.meetupParticipantCountVote (c, a) 0

/-- Source constant `SINGLE_MEETUP_INDEX`. -/
def SINGLE_MEETUP_INDEX : Nat := 1

/-- Source `purge_registry`: remove every row of the seven registries keyed
by the given ceremony index and zero the three counters. The source
returns `Ok(())` unconditionally. -/
def purge_registry (s : Ceremonies) (index : Nat) : Ceremonies :=
  { s with
    participantRegistry := storRemoveOuter s.participantRegistry index
    participantIndexOf := storRemoveOuter s.participantIndexOf index
    participantCount := 0
    meetupRegistry := storRemoveOuter s.meetupRegistry index
    meetupIndexOf := storRemoveOuter s.meetupIndexOf index
    meetupCount := 0
    witnessRegistry := storRemoveOuter s.witnessRegistry index
    witnessIndexOf := storRemoveOuter s.witnessIndexOf index
    witnessCount := 0
    meetupParticipantCountVote := storRemoveOuter s.meetupParticipantCountVote index }

/-- One iteration of the `assign_meetups` loop body: read the participant
at position `p`, push it at the end of the meetup vector and point its
meetup index at the single meetup. Reads go to the pre-loop participant
registry, which the loop does not modify. -/
def assignStep (s : Ceremonies) (cindex : Nat)
    (acc : List AccountId × (Nat × AccountId → Option Nat)) (p : Nat) :
    List AccountId × (Nat × AccountId → Option Nat) :=
  let participant := participant_registry s cindex p
  (acc.1 ++ [participant], storPut acc.2 (cindex, participant) SINGLE_MEETUP_INDEX)

/-- Source `assign_meetups`: the loop `for p in 1..min(pcount+1, 12+1)`
collects the first `min(pcount, 12)` registered participants (1-based) into
one meetup vector at `SINGLE_MEETUP_INDEX` and sets `MeetupCount = 1`.
The u64 sum `pcount + 1` is taken modulo `2 ^ 64` as release-mode Rust
arithmetic wraps. The source returns `Ok(())` unconditionally. -/
def assign_meetups (s : Ceremonies) : Ceremonies :=
  let cindex := s.currentCeremonyIndex
  let pcount := s.participantCount
  let positions := List.range' 1 (min ((pcount + 1) % 2 ^ 64) 13 - 1)
  let r := positions.foldl (assignStep s cindex) ([], s.meetupIndexOf)
  { s with
    meetupIndexOf := r.2
    meetupRegistry := storPut s.meetupRegistry (cindex, SINGLE_MEETUP_INDEX) r.1
    meetupCount := 1 }

/-- Source `verify_witness_signature`: reject a self-signed witness, then
check the signature over the claim encoding against the witness account,
via the injected signature capability. -/
def verify_witness_signature {Sig : Type}
    (verify : Sig → List Nat → AccountId → Bool) (w : Witness Sig) :
    Except String Unit :=
  if w.public = w.claim.claimant_public then
    Except.error "witness may not be self-signed"
  else if verify w.signature (encodeClaim w.claim) w.public then
    Except.ok ()
  else
    Except.error "witness signature is invalid"

/-- True when an `Except` is `ok` (source `.is_err() == false`). -/
def exceptOk {α : Type} : Except String α → Bool
  | Except.ok _ => true
  | Except.error _ => false

/-- The four per-witness admission checks of the `register_witnesses` loop,
in source order: the signer is among the meetup participants other than
the caller, the claim carries the current ceremony index and the caller
meetup index, and the signature verifies (which also excludes
self-signatures). Each `continue` of the source is one failed conjunct. -/
def acceptedWitness {Sig : Type} (verify : Sig → List Nat → AccountId → Bool)
    (cindex midx : Nat) (peers : List AccountId) (w : Witness Sig) : Bool :=
  peers.contains w.public && decide (w.claim.ceremony_index = cindex) &&
    decide (w.claim.meetup_index = midx) &&
    exceptOk (verify_witness_signature verify w)

/-- One iteration of the `register_witnesses` filtering loop: an admitted
witness account is inserted at the head of the verified vector and the
running `claim_n_participants` is set to its confirmed count; a rejected
witness is skipped silently. -/
def witnessStep {Sig : Type} (verify : Sig → List Nat → AccountId → Bool)
    (cindex midx : Nat) (peers : List AccountId)
    (acc : List AccountId × Nat) (w : Witness Sig) : List AccountId × Nat :=
  if acceptedWitness verify cindex midx peers w then
    (w.public :: acc.1, w.claim.number_of_participants_confirmed)
  else
    acc

/-- Source dispatchable `register_participant`: admitted only during
REGISTERING, rejects a caller already indexed in the current ceremony,
checked-increments the participant counter (a u64) and writes the two
registry rows. -/
def register_participant (s : Ceremonies) (sender : AccountId) :
    Except String Ceremonies :=
  if s.currentPhase = CeremonyPhaseType.REGISTERING then
    let cindex := s.currentCeremonyIndex
    if (s.participantIndexOf (cindex, sender)).isSome then
      Except.error "already registered participant"
    else
      let count := s.participantCount
      if 2 ^ 64 ≤ count + 1 then
        Except.error "Overflow adding new participant to registry"
      else
        let new_count := count + 1
        Except.ok { s with
          participantRegistry := storPut s.participantRegistry (cindex, new_count) sender
          participantIndexOf := storPut s.participantIndexOf (cindex, sender) new_count
          participantCount := new_count }
  else
    Except.error "registering participants can only be done during REGISTERING phase"

/-- Source dispatchable `register_witnesses`: admitted only during
WITNESSING; the caller must be listed in the meetup at its own meetup
index; the batch may not exceed the number of other meetup participants
(`Vec::remove_item` deletes the first occurrence of the caller); the
witnesses are filtered one by one; an empty verified vector fails the
call; otherwise the witness record is upserted at the existing witness
index of the caller, or at `WitnessCount + 1` with a checked counter
increment, and the count vote of the caller is set to the confirmed count
of the last admitted witness. -/
def register_witnesses {Sig : Type} (verify : Sig → List Nat → AccountId → Bool)
    (s : Ceremonies) (sender : AccountId) (witnesses : List (Witness Sig)) :
    Except String Ceremonies :=
  if s.currentPhase = CeremonyPhaseType.WITNESSING then
    let cindex := s.currentCeremonyIndex
    let midx := meetup_index s cindex sender
    let mp0 := meetup_registry s cindex midx
    if mp0.contains sender then
      let meetup_participants := mp0.erase sender
      if witnesses.length ≤ meetup_participants.length then
        let vr := witnesses.foldl (witnessStep verify cindex midx meetup_participants) ([], 0)
        if vr.1.length = 0 then
          Except.error "no valid witnesses found"
        else
          let count := s.witnessCount
          let idx0 := (count + 1) % 2 ^ 64
          if (s.witnessIndexOf (cindex, sender)).isSome then
            let idx := witness_index s cindex sender
            Except.ok { s with
              witnessRegistry := storPut s.witnessRegistry (cindex, idx) vr.1
              witnessIndexOf := storPut s.witnessIndexOf (cindex, sender) idx
              meetupParticipantCountVote :=
                storPut s.meetupParticipantCountVote (cindex, sender) vr.2 }
          else if 2 ^ 64 ≤ count + 1 then
            Except.error "Overflow adding new witness to registry"
          else
            Except.ok { s with
              witnessCount := count + 1
              witnessRegistry := storPut s.witnessRegistry (cindex, idx0) vr.1
              witnessIndexOf := storPut s.witnessIndexOf (cindex, sender) idx0
              meetupParticipantCountVote :=
                storPut s.meetupParticipantCountVote (cindex, sender) vr.2 }
      else
        Except.error "cannot have more witnesses than other meetup participants"
    else
      Except.error "origin not part of this meetup"
  else
    Except.error "registering witnesses can only be done during WITNESSING phase"

/-- Increment the count of the first tally entry whose vote value matches,
returning also whether a matching entry was found. This is the source's
`position(|&(n,c)| n == this_vote)` followed by the indexed count
increment, in functional form. -/
def bumpFirst (vote : Nat) : List (Nat × Nat) → List (Nat × Nat) × Bool
  | [] => ([], false)
  | nc :: rest =>
    if nc.1 = vote then ((nc.1, nc.2 + 1) :: rest, true)
    else
      let r := bumpFirst vote rest
      (nc :: r.1, r.2)

/-- One iteration of the ballot tally loop: a zero vote is skipped; an
already seen vote value has its count incremented in place; a new vote
value is inserted at the head of the candidate list with count 1. -/
def tallyStep (cands : List (Nat × Nat)) (vote : Nat) : List (Nat × Nat) :=
  if vote = 0 then cands
  else
    let r := bumpFirst vote cands
    if r.2 then r.1 else (vote, 1) :: cands

/-- Stable insertion by descending count: the inserted entry goes before
the first entry whose count does not exceed it, so entries already placed
keep their relative order on ties. -/
def insertByCountDesc (x : Nat × Nat) : List (Nat × Nat) → List (Nat × Nat)
  | [] => [x]
  | y :: ys => if y.2 ≤ x.2 then x :: y :: ys else y :: insertByCountDesc x ys

/-- Stable sort by descending vote count, modelling the source's
`sort_by(|a,b| b.1.cmp(&a.1))` (Rust's `sort_by` is a stable sort, so
tally entries with equal counts keep their list order). -/
def sortByCountDesc : List (Nat × Nat) → List (Nat × Nat)
  | [] => []
  | x :: xs => insertByCountDesc x (sortByCountDesc xs)

/-- Source `ballot_meetup_n_votes`: tally the non-zero count votes of the
meetup participants in list order, sort the candidate tallies by
descending count, and return the head unless its count is below 3. -/
def ballot_meetup_n_votes (s : Ceremonies) (meetup_idx : Nat) :
    Option (Nat × Nat) :=
  let cindex := s.currentCeremonyIndex
  let meetup_participants := meetup_registry s cindex meetup_idx
  let cands := meetup_participants.foldl
    (fun cs p => tallyStep cs (meetup_participant_count_vote s cindex p)) []
  if cands.isEmpty then none
  else
    match sortByCountDesc cands with
    | [] => none
    | top :: _ => if top.2 < 3 then none else some top

/-- The per-participant eligibility test of the `issue_rewards` loop, in
source order: the participant's own count vote must equal the ballot
winner; its stored witness vector must be non-empty of size at least
`n_honest - 1`; and at least `n_honest - 1` of those witnesses must list
the participant in their own witness vectors. The subtraction is on `Nat`;
at the call site `n_honest ≥ 3`, so the u32 subtraction never underflows. -/
def participantEligible (s : Ceremonies) (cindex n_confirmed n_honest : Nat)
    (p : AccountId) : Bool :=
  if meetup_participant_count_vote s cindex p ≠ n_confirmed then false
  else
    let witnesses := witness_registry s cindex (witness_index s cindex p)
    if witnesses.length < n_honest - 1 || witnesses.isEmpty then false
    else
      let has_witnessed := (witnesses.filter
        (fun w => (witness_registry s cindex (witness_index s cindex w)).contains p)).length
      decide (n_honest - 1 ≤ has_witnessed)

/-- One iteration of the reward loop: an eligible participant has its free
balance raised by the ceremony reward (the source checked-adds and treats
overflow as fatal; rewards are small by configuration). -/
def rewardStep (cindex n_confirmed n_honest reward : Nat)
    (st : Ceremonies) (p : AccountId) : Ceremonies :=
  if participantEligible st cindex n_confirmed n_honest p then
    { st with balances := fun a => if a = p then st.balances p + reward else st.balances a }
  else
    st

/-- Source `issue_rewards`: callable only at the end of WITNESSING, with
exactly one meetup. The loop `for m in 0..meetup_count` runs once and uses
`SINGLE_MEETUP_INDEX`; a ballot without a dependable winner skips the
meetup, otherwise each meetup participant is tested and credited. The
reward and ceremony index are read once before the loop. -/
def issue_rewards (s : Ceremonies) : Except String Ceremonies :=
  if s.currentPhase = CeremonyPhaseType.WITNESSING then
    if s.meetupCount = 1 then
      let cindex := s.currentCeremonyIndex
      let reward := s.ceremonyReward
      match ballot_meetup_n_votes s SINGLE_MEETUP_INDEX with
      | none => Except.ok s
      | some (n_confirmed, n_honest) =>
        let meetup_participants := meetup_registry s cindex SINGLE_MEETUP_INDEX
        Except.ok (meetup_participants.foldl (rewardStep cindex n_confirmed n_honest reward) s)
    else
      Except.error "registry must contain exactly one meetup for PoC1"
  else
    Except.error "issuance can only be called at the end of WITNESSING phase"

/-- Source dispatchable `next_phase`: only the ceremony master may advance.
From REGISTERING, assign the meetups and move to ASSIGNING; from ASSIGNING
move to WITNESSING; from WITNESSING, run the reward issuance (the source
discards its `Result`; every error path of `issue_rewards` precedes its
first mutation, so an error leaves the state unchanged), compute the next
ceremony index with `checked_add` and a deliberate wrap to 0 on u32
overflow, purge the closing ceremony, and store the new index. Every
successful call deposits one `PhaseChangedTo` event. -/
def next_phase (s : Ceremonies) (sender : AccountId) :
    Except String (Ceremonies × List CeremonyEvent) :=
  if sender = s.ceremonyMaster then
    let cindex := s.currentCeremonyIndex
    let step : Ceremonies × CeremonyPhaseType :=
      match s.currentPhase with
      | CeremonyPhaseType.REGISTERING => (assign_meetups s, CeremonyPhaseType.ASSIGNING)
      | CeremonyPhaseType.ASSIGNING => (s, CeremonyPhaseType.WITNESSING)
      | CeremonyPhaseType.WITNESSING =>
        let s2 := match issue_rewards s with
          | Except.ok t => t
          | Except.error _ => s
        let next_index := if cindex = 2 ^ 32 - 1 then 0 else cindex + 1
        let s3 := purge_registry s2 cindex
        ({ s3 with currentCeremonyIndex := next_index }, CeremonyPhaseType.REGISTERING)
    Except.ok ({ step.1 with currentPhase := step.2 },
      [CeremonyEvent.PhaseChangedTo step.2])
  else
    Except.error "only the CeremonyMaster can call this function"

/-- Equality of everything but the balance ledger: the registry rows, the
counters and the scalar configuration. `issue_rewards` touches only
balances. -/
def sameExceptBalances (s t : Ceremonies) : Prop :=
  s.participantRegistry = t.participantRegistry ∧
  s.participantIndexOf = t.participantIndexOf ∧
  s.participantCount = t.participantCount ∧
  s.meetupRegistry = t.meetupRegistry ∧
  s.meetupIndexOf = t.meetupIndexOf ∧
  s.meetupCount = t.meetupCount ∧
  s.witnessRegistry = t.witnessRegistry ∧
  s.witnessIndexOf = t.witnessIndexOf ∧
  s.witnessCount = t.witnessCount ∧
  s.meetupParticipantCountVote = t.meetupParticipantCountVote ∧
  s.currentCeremonyIndex = t.currentCeremonyIndex ∧
  s.currentPhase = t.currentPhase ∧
  s.ceremonyReward = t.ceremonyReward ∧
  s.ceremonyMaster = t.ceremonyMaster

/-- The count votes of the meetup members, in meetup list order: the vote
sequence the ballot iterates over. -/
def votesOf (s : Ceremonies) (midx : Nat) : List Nat :=
  (meetup_registry s s.currentCeremonyIndex midx).map
    (fun p => meetup_participant_count_vote s s.currentCeremonyIndex p)

/-- Number of occurrences of a value in a list of naturals. -/
def countIn (vs : List Nat) (v : Nat) : Nat :=
  (vs.filter (fun x => x = v)).length

/-- The tally a vote value receives in the ballot over a meetup: how many
members cast exactly that count vote. -/
def countVotes (s : Ceremonies) (midx v : Nat) : Nat :=
  countIn (votesOf s midx) v

/-- Index of the first occurrence of a value in a list (length of the list
when absent). -/
def firstIdx (v : Nat) : List Nat → Nat
  | [] => 0
  | x :: xs => if x = v then 0 else firstIdx v xs + 1

/-- The first entry of a tally list holding the maximum count: on equal
counts the earlier entry wins. This is the head a stable descending sort
by count puts first. -/
def firstMax : List (Nat × Nat) → Option (Nat × Nat)
  | [] => none
  | x :: xs =>
    match firstMax xs with
    | none => some x
    | some m => if m.2 ≤ x.2 then some x else some m

/-- Idealised signature scheme used to instantiate the abstract signature
collaborator on concrete runs: a signature records the signed message and
the signing account, and verification compares both. -/
abbrev SigT := List Nat × AccountId

/-- Verification capability of the idealised scheme. -/
def sigVerify (sg : SigT) (msg : List Nat) (pk : AccountId) : Bool :=
  decide (sg.1 = msg) && decide (sg.2 = pk)

/-- A well-signed witness of the idealised scheme: `signer` signs the
claim encoding and attaches its own account. -/
def mkWitness (c : ClaimOfAttendance) (signer : AccountId) : Witness SigT :=
  { claim := c, signature := (encodeClaim c, signer), public := signer }

/-- An empty module state: genesis configuration ceremony index 1, reward
1000, master account 1, no registry rows, all balances zero. -/
def baseState : Ceremonies := {
  participantRegistry := fun _ => none
  participantIndexOf := fun _ => none
  participantCount := 0
  meetupRegistry := fun _ => none
  meetupIndexOf := fun _ => none
  meetupCount := 0
  witnessRegistry := fun _ => none
  witnessIndexOf := fun _ => none
  witnessCount := 0
  meetupParticipantCountVote := fun _ => none
  currentCeremonyIndex := 1
  currentPhase := CeremonyPhaseType.REGISTERING
  ceremonyReward := 1000
  ceremonyMaster := 1
  balances := fun _ => 0 }

/-- Build a double-map from an association list over ceremony 1. -/
def mapOf (l : List (Nat × Nat)) : Nat × Nat → Option Nat :=
  l.foldl (fun m kv => storPut m (1, kv.1) kv.2) (fun _ => none)

/-- Build a list-valued double-map from an association list over ceremony 1. -/
def listMapOf (l : List (Nat × List Nat)) : Nat × Nat → Option (List Nat) :=
  l.foldl (fun m kv => storPut m (1, kv.1) kv.2) (fun _ => none)

/-- Witnessing-phase state with one meetup of six members whose count
votes are 5, 5, 5, 4, 4, 4 in meetup order: the values 5 and 4 tie with
top tally 3, and 5 is observed first. -/
def tieState : Ceremonies := { baseState with
  currentPhase := CeremonyPhaseType.WITNESSING
  meetupCount := 1
  meetupRegistry := listMapOf [(1, [1, 2, 3, 4, 5, 6])]
  meetupParticipantCountVote :=
    mapOf [(1, 5), (2, 5), (3, 5), (4, 4), (5, 4), (6, 4)] }

/-- Witnessing-phase state with no meetup at all (`MeetupCount = 0`). -/
def noMeetupState : Ceremonies := { baseState with
  currentPhase := CeremonyPhaseType.WITNESSING
  meetupCount := 0 }

/-- Witnessing-phase state with one meetup of three members who all vote 3
and all hold mutually reciprocal witness records: every member is
reward-eligible. -/
def rewardState : Ceremonies := { baseState with
  currentPhase := CeremonyPhaseType.WITNESSING
  meetupCount := 1
  meetupRegistry := listMapOf [(1, [1, 2, 3])]
  meetupParticipantCountVote := mapOf [(1, 3), (2, 3), (3, 3)]
  witnessIndexOf := mapOf [(1, 1), (2, 2), (3, 3)]
  witnessRegistry := listMapOf [(1, [2, 3]), (2, [1, 3]), (3, [1, 2])] }

/-- Witnessing-phase state with one meetup of six members whose votes are
5, 4, 6, 5, 4, 6: every tally is 2, below the confidence threshold 3. -/
def lowTallyState : Ceremonies := { baseState with
  currentPhase := CeremonyPhaseType.WITNESSING
  meetupCount := 1
  meetupRegistry := listMapOf [(1, [1, 2, 3, 4, 5, 6])]
  meetupParticipantCountVote :=
    mapOf [(1, 5), (2, 4), (3, 6), (4, 5), (5, 4), (6, 6)] }

/-- Witnessing-phase state for the ingestion claims: one meetup of the
accounts 2, 3 and 4, each meetup-indexed at the single meetup. -/
def ingestState : Ceremonies := { baseState with
  currentPhase := CeremonyPhaseType.WITNESSING
  meetupCount := 1
  meetupRegistry := listMapOf [(1, [2, 3, 4])]
  meetupIndexOf := mapOf [(2, 1), (3, 1), (4, 1)] }

/-- A claim of account 2 for the current ceremony and meetup, confirming
three attendees. -/
def claim2 : ClaimOfAttendance :=
  { claimant_public := 2, ceremony_index := 1, meetup_index := 1
    number_of_participants_confirmed := 3 }

/-- A batch for caller 2: a valid witness signed by peer 3 and a witness
signed by the non-participant 5, which is silently skipped. -/
def batchGoodBad : List (Witness SigT) :=
  [mkWitness claim2 3, mkWitness claim2 5]

/-- A batch for caller 2 holding only the non-participant witness: every
entry is filtered and the call must fail. -/
def batchAllBad : List (Witness SigT) :=
  [mkWitness claim2 5]

/-- Like `ingestState` but caller 2 already owns witness record 7 and the
witness counter stands at 9: an upsert must overwrite in place. -/
def upsertState : Ceremonies := { ingestState with
  witnessCount := 9
  witnessIndexOf := mapOf [(2, 7)]
  witnessRegistry := listMapOf [(7, [9])] }

/-- Registering-phase state with three registered participants (accounts
10, 11, 12 at positions 1, 2, 3). -/
def threeRegisteredState : Ceremonies := { baseState with
  participantCount := 3
  participantRegistry := mapOf [(1, 10), (2, 11), (3, 12)]
  participantIndexOf := mapOf [(10, 1), (11, 2), (12, 3)] }

/-- Registering-phase state where account 5 is already registered at
position 1. -/
def registeredOnceState : Ceremonies := { baseState with
  participantCount := 1
  participantRegistry := mapOf [(1, 5)]
  participantIndexOf := mapOf [(5, 1)] }

/-- Observable outcome of three consecutive `next_phase` calls: the final
phase, the final ceremony index and the three deposited event lists. -/
def phaseChain (s : Ceremonies) (a : AccountId) :
    Option (CeremonyPhaseType × Nat × List CeremonyEvent) :=
  match next_phase s a with
  | Except.error _ => none
  | Except.ok (s1, ev1) =>
    match next_phase s1 a with
    | Except.error _ => none
    | Except.ok (s2, ev2) =>
      match next_phase s2 a with
      | Except.error _ => none
      | Except.ok (s3, ev3) =>
        some (s3.currentPhase, s3.currentCeremonyIndex, ev1 ++ ev2 ++ ev3)

/-- The state after a successful dispatch, or the input state if the call
failed: used to name the post-state of a concrete run in closed
statements. -/
def okState (s : Ceremonies) (r : Except String Ceremonies) : Ceremonies :=
  match r with
  | Except.ok t => t
  | Except.error _ => s

/-- The post-state of a `next_phase` run, or the input state on failure. -/
def okStateNP (s : Ceremonies) (r : Except String (Ceremonies × List CeremonyEvent)) :
    Ceremonies :=
  match r with
  | Except.ok t => t.1
  | Except.error _ => s

theorem storGet_put_same {ν : Type} (m : Nat × Nat → Option ν) (k : Nat × Nat)
    (v d : ν) : storGet (storPut m k v) k d = v := by
  simp [storGet, storPut]

theorem storGet_put_other {ν : Type} (m : Nat × Nat → Option ν) (k q : Nat × Nat)
    (v d : ν) (h : q ≠ k) : storGet (storPut m k v) q d = storGet m q d := by
  simp [storGet, storPut, h]

/-- C9: a `register_participant` call during REGISTERING by an account
already indexed in the current ceremony fails with the already-registered
error; the failed dispatch commits no writes, so the participant counter
and both participant maps are untouched. -/
theorem register_participant_duplicate (s : Ceremonies) (a : AccountId)
    (hp : s.currentPhase = CeremonyPhaseType.REGISTERING)
    (hreg : (s.participantIndexOf (s.currentCeremonyIndex, a)).isSome = true) :
    register_participant s a = Except.error "already registered participant" := by
  simp [register_participant, hp, hreg]

/-- C9 witness: account 5 is registered at position 1 of ceremony 1 in
`registeredOnceState`; registering it again errors. -/
theorem register_participant_duplicate_witness :
    register_participant registeredOnceState 5 =
      Except.error "already registered participant" :=
  register_participant_duplicate registeredOnceState 5 rfl rfl

/-- C10: during WITNESSING, a `register_witnesses` caller that is not
listed in the meetup at its own meetup index (in particular an account
never assigned to a meetup, whose meetup index defaults to 0 and whose
meetup registry row 0 defaults to the empty list) fails with the
meetup-membership error, whatever the batch — so before the batch-size
check and the per-witness filtering — and no state is written. -/
theorem register_witnesses_not_in_meetup {Sig : Type}
    (verify : Sig → List Nat → AccountId → Bool) (s : Ceremonies)
    (sender : AccountId) (ws : List (Witness Sig))
    (hp : s.currentPhase = CeremonyPhaseType.WITNESSING)
    (hmem : sender ∉ meetup_registry s s.currentCeremonyIndex
      (meetup_index s s.currentCeremonyIndex sender)) :
    register_witnesses verify s sender ws =
      Except.error "origin not part of this meetup" := by
  simp [register_witnesses, hp, hmem]

/-- C10 witness: in `noMeetupState` the account 5 was never assigned, its
meetup index reads 0 and meetup 0 reads empty, and its oversized batch of
two witnesses is rejected with the membership error. -/
theorem register_witnesses_not_in_meetup_witness :
    register_witnesses sigVerify noMeetupState 5 batchGoodBad =
      Except.error "origin not part of this meetup" :=
  register_witnesses_not_in_meetup sigVerify noMeetupState 5 batchGoodBad rfl
    (by decide)

/-- C3 counterexample: `noMeetupState` is in WITNESSING with
`MeetupCount = 0` and master account 1, yet the master's `next_phase`
call succeeds and moves the phase to REGISTERING — the claim that the
whole transition fails with an error is false: the source discards the
`Result` of `issue_rewards`. -/
theorem next_phase_nonunique_meetup_cex :
    noMeetupState.currentPhase = CeremonyPhaseType.WITNESSING ∧
    noMeetupState.meetupCount ≠ 1 ∧
    noMeetupState.ceremonyMaster = 1 ∧
    exceptOk (next_phase noMeetupState 1) = true ∧
    (okStateNP noMeetupState (next_phase noMeetupState 1)).currentPhase =
      CeremonyPhaseType.REGISTERING :=
  ⟨rfl, by decide, rfl, rfl, rfl⟩

/-- C3 amended: in WITNESSING with `MeetupCount ≠ 1`, `issue_rewards`
itself fails (the reward evaluator requires exactly one meetup), but
`next_phase` discards that error: the master's call still succeeds, the
phase moves to REGISTERING, the ceremony index advances (with the wrap to
0 on u32 overflow) and no balance changes. -/
theorem next_phase_ignores_reward_error (s : Ceremonies)
    (hp : s.currentPhase = CeremonyPhaseType.WITNESSING)
    (hm : s.meetupCount ≠ 1) :
    issue_rewards s =
      Except.error "registry must contain exactly one meetup for PoC1" ∧
    ∃ s3 ev, next_phase s s.ceremonyMaster = Except.ok (s3, ev) ∧
      s3.currentPhase = CeremonyPhaseType.REGISTERING ∧
      s3.balances = s.balances ∧
      s3.currentCeremonyIndex =
        (if s.currentCeremonyIndex = 2 ^ 32 - 1 then 0
         else s.currentCeremonyIndex + 1) := by
  have hir : issue_rewards s =
      Except.error "registry must contain exactly one meetup for PoC1" := by
    simp [issue_rewards, hp, hm]
  refine ⟨hir,
    { purge_registry s s.currentCeremonyIndex with
        currentCeremonyIndex :=
          if s.currentCeremonyIndex = 2 ^ 32 - 1 then 0
          else s.currentCeremonyIndex + 1
        currentPhase := CeremonyPhaseType.REGISTERING },
    [CeremonyEvent.PhaseChangedTo CeremonyPhaseType.REGISTERING],
    ?_, rfl, ?_, rfl⟩
  · simp [next_phase, hp, hir]
  · simp [purge_registry]

/-- C3 amended witness: in `noMeetupState` (WITNESSING, no meetup) the
reward evaluator errors but the master transition succeeds into
REGISTERING. -/
theorem next_phase_ignores_reward_error_witness :
    issue_rewards noMeetupState =
      Except.error "registry must contain exactly one meetup for PoC1" ∧
    (okStateNP noMeetupState (next_phase noMeetupState 1)).currentPhase =
      CeremonyPhaseType.REGISTERING := by
  obtain ⟨h1, s3, ev, heq, hphase, hbal, hidx⟩ :=
    next_phase_ignores_reward_error noMeetupState rfl (by decide)
  refine ⟨h1, ?_⟩
  rw [show next_phase noMeetupState 1 = Except.ok (s3, ev) from heq] at *
  simpa [okStateNP] using hphase

/-- C6: a successful master `next_phase` call from WITNESSING closes the
current ceremony: every row of the seven registries keyed by it is
removed, the three counters are zero, and every subsequent lookup keyed
by it yields the value type default (0, empty list, default account 0). -/
theorem purge_completeness (s s' : Ceremonies) (ev : List CeremonyEvent)
    (hp : s.currentPhase = CeremonyPhaseType.WITNESSING)
    (h : next_phase s s.ceremonyMaster = Except.ok (s', ev)) :
    (∀ k, s'.participantRegistry (s.currentCeremonyIndex, k) = none ∧
          s'.participantIndexOf (s.currentCeremonyIndex, k) = none ∧
          s'.meetupRegistry (s.currentCeremonyIndex, k) = none ∧
          s'.meetupIndexOf (s.currentCeremonyIndex, k) = none ∧
          s'.witnessRegistry (s.currentCeremonyIndex, k) = none ∧
          s'.witnessIndexOf (s.currentCeremonyIndex, k) = none ∧
          s'.meetupParticipantCountVote (s.currentCeremonyIndex, k) = none) ∧
    s'.participantCount = 0 ∧ s'.meetupCount = 0 ∧ s'.witnessCount = 0 ∧
    (∀ k, participant_registry s' s.currentCeremonyIndex k = 0 ∧
          participant_index s' s.currentCeremonyIndex k = 0 ∧
          meetup_registry s' s.currentCeremonyIndex k = [] ∧
          meetup_index s' s.currentCeremonyIndex k = 0 ∧
          witness_registry s' s.currentCeremonyIndex k = [] ∧
          witness_index s' s.currentCeremonyIndex k = 0 ∧
          meetup_participant_count_vote s' s.currentCeremonyIndex k = 0) := by
  simp [next_phase, hp] at h
  obtain ⟨hs, -⟩ := h
  subst hs
  refine ⟨fun k => ?_, rfl, rfl, rfl, fun k => ?_⟩
  · simp [purge_registry, storRemoveOuter]
  · simp [participant_registry, participant_index, meetup_registry, meetup_index,
      witness_registry, witness_index, meetup_participant_count_vote,
      purge_registry, storRemoveOuter, storGet]

/-- C6 witness: closing ceremony 1 of `rewardState` purges it; sample
lookups keyed by 1 all read the defaults afterwards. -/
theorem purge_completeness_witness :
    (okStateNP rewardState (next_phase rewardState 1)).witnessRegistry (1, 2) = none ∧
    (okStateNP rewardState (next_phase rewardState 1)).participantCount = 0 ∧
    meetup_registry (okStateNP rewardState (next_phase rewardState 1)) 1 1 = [] ∧
    witness_index (okStateNP rewardState (next_phase rewardState 1)) 1 2 = 0 := by
  have h := purge_completeness rewardState
    (okStateNP rewardState (next_phase rewardState 1))
    [CeremonyEvent.PhaseChangedTo CeremonyPhaseType.REGISTERING] rfl rfl
  exact ⟨(h.1 2).2.2.2.2.1, h.2.1, (h.2.2.2.2 1).2.2.1, (h.2.2.2.2 2).2.2.2.2.2.1⟩

/-- C7: from REGISTERING, three successful master calls to `next_phase`
pass through ASSIGNING and WITNESSING and return to REGISTERING, each
depositing exactly one `PhaseChangedTo` event carrying the new phase, and
the ceremony index becomes the old index plus one modulo `2 ^ 32` (the
deliberate wrap to 0 on u32 overflow). -/
theorem phase_cycle (s : Ceremonies)
    (hp : s.currentPhase = CeremonyPhaseType.REGISTERING)
    (hidx : s.currentCeremonyIndex < 2 ^ 32) :
    ∃ s1 s2 s3,
      next_phase s s.ceremonyMaster =
        Except.ok (s1, [CeremonyEvent.PhaseChangedTo CeremonyPhaseType.ASSIGNING]) ∧
      s1.currentPhase = CeremonyPhaseType.ASSIGNING ∧
      next_phase s1 s.ceremonyMaster =
        Except.ok (s2, [CeremonyEvent.PhaseChangedTo CeremonyPhaseType.WITNESSING]) ∧
      s2.currentPhase = CeremonyPhaseType.WITNESSING ∧
      next_phase s2 s.ceremonyMaster =
        Except.ok (s3, [CeremonyEvent.PhaseChangedTo CeremonyPhaseType.REGISTERING]) ∧
      s3.currentPhase = CeremonyPhaseType.REGISTERING ∧
      s3.currentCeremonyIndex = (s.currentCeremonyIndex + 1) % 2 ^ 32 := by
  refine ⟨{ assign_meetups s with currentPhase := CeremonyPhaseType.ASSIGNING },
    { assign_meetups s with currentPhase := CeremonyPhaseType.WITNESSING },
    { purge_registry
        (match issue_rewards { assign_meetups s with
            currentPhase := CeremonyPhaseType.WITNESSING } with
          | Except.ok t => t
          | Except.error _ =>
            { assign_meetups s with currentPhase := CeremonyPhaseType.WITNESSING })
        s.currentCeremonyIndex with
      currentCeremonyIndex :=
        if s.currentCeremonyIndex = 2 ^ 32 - 1 then 0 else s.currentCeremonyIndex + 1
      currentPhase := CeremonyPhaseType.REGISTERING },
    ?_, rfl, ?_, rfl, ?_, rfl, ?_⟩
  · simp [next_phase, hp]
  · simp [next_phase, assign_meetups]
  · simp [next_phase, assign_meetups]
  · change (if s.currentCeremonyIndex = 2 ^ 32 - 1 then 0
      else s.currentCeremonyIndex + 1) = (s.currentCeremonyIndex + 1) % 2 ^ 32
    have h32 : (2 : Nat) ^ 32 = 4294967296 := by norm_num
    rw [h32] at hidx ⊢
    split <;> omega

/-- C7 witness: from the genesis state (REGISTERING, index 1, master 1),
three advances land back in REGISTERING with index 2, with the three
phase-change events in order. -/
theorem phase_cycle_witness :
    phaseChain baseState 1 =
      some (CeremonyPhaseType.REGISTERING, 2,
        [CeremonyEvent.PhaseChangedTo CeremonyPhaseType.ASSIGNING,
         CeremonyEvent.PhaseChangedTo CeremonyPhaseType.WITNESSING,
         CeremonyEvent.PhaseChangedTo CeremonyPhaseType.REGISTERING]) := by
  obtain ⟨s1, s2, s3, h1, hp1, h2, hp2, h3, hp3, hix⟩ :=
    phase_cycle baseState rfl (by decide)
  have hm : baseState.ceremonyMaster = 1 := rfl
  rw [hm] at h1 h2 h3
  simp only [phaseChain, h1, h2, h3, hp3, hix]
  rfl

theorem verify_witness_signature_ok {Sig : Type}
    (verify : Sig → List Nat → AccountId → Bool) (w : Witness Sig) :
    exceptOk (verify_witness_signature verify w) = true ↔
      (w.public ≠ w.claim.claimant_public ∧
       verify w.signature (encodeClaim w.claim) w.public = true) := by
  unfold verify_witness_signature
  by_cases hs : w.public = w.claim.claimant_public
  · simp [hs, exceptOk]
  · by_cases hv : verify w.signature (encodeClaim w.claim) w.public
    · simp [hs, hv, exceptOk]
    · simp [hs, hv, exceptOk]

theorem acceptedWitness_iff {Sig : Type}
    (verify : Sig → List Nat → AccountId → Bool) (ci mi : Nat)
    (peers : List AccountId) (w : Witness Sig) :
    acceptedWitness verify ci mi peers w = true ↔
      (w.public ∈ peers ∧ w.claim.ceremony_index = ci ∧ w.claim.meetup_index = mi ∧
       w.public ≠ w.claim.claimant_public ∧
       verify w.signature (encodeClaim w.claim) w.public = true) := by
  simp [acceptedWitness, verify_witness_signature_ok, List.contains, and_assoc]

theorem witnessFold_eq {Sig : Type} (verify : Sig → List Nat → AccountId → Bool)
    (ci mi : Nat) (peers : List AccountId) (ws : List (Witness Sig)) :
    ∀ acc : List AccountId × Nat,
      ws.foldl (witnessStep verify ci mi peers) acc =
        (((ws.filter (fun w => acceptedWitness verify ci mi peers w)).map
            (fun w => w.public)).reverse ++ acc.1,
         (((ws.filter (fun w => acceptedWitness verify ci mi peers w)).getLast?).map
            (fun w => w.claim.number_of_participants_confirmed)).getD acc.2) := by
  induction ws with
  | nil => intro acc; rfl
  | cons w rest ih =>
    intro acc
    simp only [List.foldl_cons, List.filter_cons]
    by_cases hac : acceptedWitness verify ci mi peers w
    · rw [if_pos hac]
      have hstep : witnessStep verify ci mi peers acc w =
          (w.public :: acc.1, w.claim.number_of_participants_confirmed) := by
        simp [witnessStep, hac]
      rw [hstep, ih]
      rcases hfr : rest.filter (fun w => acceptedWitness verify ci mi peers w) with
        _ | ⟨x, xs⟩
      · simp
      · have hl : ∃ l, (x :: xs).getLast? = some l := by
          cases hxs : (x :: xs).getLast? with
          | none => exact absurd hxs (by simp [List.getLast?_eq_none_iff])
          | some l => exact ⟨l, rfl⟩
        obtain ⟨l, hl⟩ := hl
        simp [List.getLast?_cons_cons, hl]
    · rw [if_neg hac]
      have hstep : witnessStep verify ci mi peers acc w = acc := by
        simp [witnessStep, hac]
      rw [hstep, ih]

theorem register_witnesses_ok_spec {Sig : Type}
    (verify : Sig → List Nat → AccountId → Bool) (s s' : Ceremonies)
    (sender : AccountId) (ws : List (Witness Sig))
    (h : register_witnesses verify s sender ws = Except.ok s') :
    ∃ idx,
      witness_index s' s.currentCeremonyIndex sender = idx ∧
      witness_registry s' s.currentCeremonyIndex idx =
        (ws.foldl (witnessStep verify s.currentCeremonyIndex
          (meetup_index s s.currentCeremonyIndex sender)
          ((meetup_registry s s.currentCeremonyIndex
            (meetup_index s s.currentCeremonyIndex sender)).erase sender)) ([], 0)).1 ∧
      meetup_participant_count_vote s' s.currentCeremonyIndex sender =
        (ws.foldl (witnessStep verify s.currentCeremonyIndex
          (meetup_index s s.currentCeremonyIndex sender)
          ((meetup_registry s s.currentCeremonyIndex
            (meetup_index s s.currentCeremonyIndex sender)).erase sender)) ([], 0)).2 ∧
      ((s.witnessIndexOf (s.currentCeremonyIndex, sender)).isSome = true →
        idx = witness_index s s.currentCeremonyIndex sender ∧
        s'.witnessCount = s.witnessCount ∧
        ∀ j, j ≠ idx →
          s'.witnessRegistry (s.currentCeremonyIndex, j) =
            s.witnessRegistry (s.currentCeremonyIndex, j)) ∧
      ((s.witnessIndexOf (s.currentCeremonyIndex, sender)).isSome = false →
        idx = s.witnessCount + 1 ∧ s'.witnessCount = s.witnessCount + 1) := by
  simp only [register_witnesses] at h
  split at h
  case isFalse => simp at h
  split at h
  case isFalse => simp at h
  split at h
  case isFalse => simp at h
  split at h
  case isTrue => simp at h
  rename_i hvr
  split at h
  case isTrue hex =>
    rw [Except.ok.injEq] at h
    subst h
    refine ⟨witness_index s s.currentCeremonyIndex sender, ?_, ?_, ?_, ?_, ?_⟩
    · exact storGet_put_same _ _ _ _
    · exact storGet_put_same _ _ _ _
    · exact storGet_put_same _ _ _ _
    · intro _
      refine ⟨rfl, rfl, fun j hj => ?_⟩
      show storPut _ _ _ _ = _
      simp [storPut, hj]
    · intro hfalse
      rw [hex] at hfalse
      cases hfalse
  case isFalse hex =>
    split at h
    case isTrue => simp at h
    rename_i hno
    have hlt : s.witnessCount + 1 < 2 ^ 64 := by omega
    rw [Nat.mod_eq_of_lt hlt] at h
    rw [Except.ok.injEq] at h
    subst h
    refine ⟨s.witnessCount + 1, ?_, ?_, ?_, ?_, ?_⟩
    · exact storGet_put_same _ _ _ _
    · exact storGet_put_same _ _ _ _
    · exact storGet_put_same _ _ _ _
    · intro htrue
      rw [Bool.not_eq_true] at hex
      rw [hex] at htrue
      cases htrue
    · intro _
      exact ⟨rfl, rfl⟩

/-- C4: every witness account recorded by a successful `register_witnesses`
call comes from a submitted witness whose signer is a meetup peer of the
caller (a member of the caller's meetup other than the caller), whose
claim carries the current ceremony index and the caller's meetup index,
whose signature verifies over the claim encoding, and whose signer
differs from the claimant; and when the batch passes the phase, membership
and size guards but every witness is filtered out, the call fails with the
no-valid-witnesses error (and, the dispatch failing, writes nothing). -/
theorem register_witnesses_filter_spec {Sig : Type}
    (verify : Sig → List Nat → AccountId → Bool) (s : Ceremonies)
    (sender : AccountId) (ws : List (Witness Sig)) :
    (∀ s', register_witnesses verify s sender ws = Except.ok s' →
      ∀ a, a ∈ witness_registry s' s.currentCeremonyIndex
          (witness_index s' s.currentCeremonyIndex sender) →
        ∃ w, w ∈ ws ∧ w.public = a ∧
          a ∈ (meetup_registry s s.currentCeremonyIndex
                (meetup_index s s.currentCeremonyIndex sender)).erase sender ∧
          w.claim.ceremony_index = s.currentCeremonyIndex ∧
          w.claim.meetup_index = meetup_index s s.currentCeremonyIndex sender ∧
          verify w.signature (encodeClaim w.claim) w.public = true ∧
          w.public ≠ w.claim.claimant_public) ∧
    (s.currentPhase = CeremonyPhaseType.WITNESSING →
      sender ∈ meetup_registry s s.currentCeremonyIndex
        (meetup_index s s.currentCeremonyIndex sender) →
      ws.length ≤ ((meetup_registry s s.currentCeremonyIndex
        (meetup_index s s.currentCeremonyIndex sender)).erase sender).length →
      ws.filter (fun w => acceptedWitness verify s.currentCeremonyIndex
        (meetup_index s s.currentCeremonyIndex sender)
        ((meetup_registry s s.currentCeremonyIndex
          (meetup_index s s.currentCeremonyIndex sender)).erase sender) w) = [] →
      register_witnesses verify s sender ws =
        Except.error "no valid witnesses found") := by
  constructor
  · intro s' h a ha
    obtain ⟨idx, hwi, hwr, hv, hexT, hexF⟩ :=
      register_witnesses_ok_spec verify s s' sender ws h
    rw [hwi, hwr, witnessFold_eq] at ha
    simp only [List.append_nil, List.mem_reverse, List.mem_map] at ha
    obtain ⟨w, hwmem, hwpub⟩ := ha
    rw [List.mem_filter] at hwmem
    obtain ⟨hmemws, hacc⟩ := hwmem
    rw [acceptedWitness_iff] at hacc
    obtain ⟨hpeer, hci, hmi, hself, hsig⟩ := hacc
    exact ⟨w, hmemws, hwpub, hwpub ▸ hpeer, hci, hmi, hsig, hself⟩
  · intro hphase hmem hlen hfilter
    have hct : (meetup_registry s s.currentCeremonyIndex
        (meetup_index s s.currentCeremonyIndex sender)).contains sender = true := by
      simpa using hmem
    have hlen2 : ws.length ≤ (meetup_registry s s.currentCeremonyIndex
        (meetup_index s s.currentCeremonyIndex sender)).length - 1 := by
      rwa [List.length_erase_of_mem hmem] at hlen
    simp [register_witnesses, hphase, hct, hlen, hlen2, witnessFold_eq, hfilter, hmem]

/-- C4 witness: for caller 2 of `ingestState`, the batch `batchGoodBad`
stores exactly the peer 3 (the non-participant 5 is skipped), whose
witness satisfies all admission conditions; and the all-rejected batch
`batchAllBad` fails with the no-valid-witnesses error. -/
theorem register_witnesses_filter_spec_witness :
    (∃ w, w ∈ batchGoodBad ∧ w.public = 3 ∧
      3 ∈ (meetup_registry ingestState 1 (meetup_index ingestState 1 2)).erase 2 ∧
      w.claim.ceremony_index = 1 ∧
      w.claim.meetup_index = meetup_index ingestState 1 2 ∧
      sigVerify w.signature (encodeClaim w.claim) w.public = true ∧
      w.public ≠ w.claim.claimant_public) ∧
    register_witnesses sigVerify ingestState 2 batchAllBad =
      Except.error "no valid witnesses found" := by
  constructor
  · exact (register_witnesses_filter_spec sigVerify ingestState 2 batchGoodBad).1
      (okState ingestState (register_witnesses sigVerify ingestState 2 batchGoodBad))
      rfl 3 (by decide)
  · exact (register_witnesses_filter_spec sigVerify ingestState 2 batchAllBad).2
      rfl (by decide) (by decide) (by decide)

/-- C5: a successful `register_witnesses` call upserts. When the caller
already holds a witness index in the current ceremony, the record is
overwritten at that same index: the witness counter is unchanged, the
caller keeps its index, and every other witness-registry row of the
ceremony is untouched (so no second record for the caller ever appears);
a first-time caller is stored at `WitnessCount + 1` and the counter is
incremented; and in both cases the caller's count vote is set to the
confirmed count of the last accepted witness of the batch. -/
theorem register_witnesses_upsert {Sig : Type}
    (verify : Sig → List Nat → AccountId → Bool) (s s' : Ceremonies)
    (sender : AccountId) (ws : List (Witness Sig))
    (h : register_witnesses verify s sender ws = Except.ok s') :
    ((s.witnessIndexOf (s.currentCeremonyIndex, sender)).isSome = true →
      s'.witnessCount = s.witnessCount ∧
      witness_index s' s.currentCeremonyIndex sender =
        witness_index s s.currentCeremonyIndex sender ∧
      ∀ j, j ≠ witness_index s s.currentCeremonyIndex sender →
        s'.witnessRegistry (s.currentCeremonyIndex, j) =
          s.witnessRegistry (s.currentCeremonyIndex, j)) ∧
    ((s.witnessIndexOf (s.currentCeremonyIndex, sender)).isSome = false →
      witness_index s' s.currentCeremonyIndex sender = s.witnessCount + 1 ∧
      s'.witnessCount = s.witnessCount + 1) ∧
    (∀ wl, (ws.filter (fun w => acceptedWitness verify s.currentCeremonyIndex
        (meetup_index s s.currentCeremonyIndex sender)
        ((meetup_registry s s.currentCeremonyIndex
          (meetup_index s s.currentCeremonyIndex sender)).erase sender)
        w)).getLast? = some wl →
      meetup_participant_count_vote s' s.currentCeremonyIndex sender =
        wl.claim.number_of_participants_confirmed) := by
  obtain ⟨idx, hwi, hwr, hv, hexT, hexF⟩ :=
    register_witnesses_ok_spec verify s s' sender ws h
  refine ⟨?_, ?_, ?_⟩
  · intro hex
    obtain ⟨hidx, hcnt, hother⟩ := hexT hex
    subst hidx
    exact ⟨hcnt, hwi, hother⟩
  · intro hex
    obtain ⟨hidx, hcnt⟩ := hexF hex
    subst hidx
    exact ⟨hwi, hcnt⟩
  · intro wl hwl
    rw [hv, witnessFold_eq]
    simp [hwl]

/-- C5 witness: in `upsertState` the caller 2 already owns record 7 with
counter 9; re-registering overwrites in place (counter stays 9, index
stays 7, row 8 untouched) and sets the vote to 3, the confirmed count of
the last accepted witness; in `ingestState` the first-time caller 2 gets
index `WitnessCount + 1 = 1` and the counter becomes 1. -/
theorem register_witnesses_upsert_witness :
    (okState upsertState
      (register_witnesses sigVerify upsertState 2 batchGoodBad)).witnessCount = 9 ∧
    witness_index (okState upsertState
      (register_witnesses sigVerify upsertState 2 batchGoodBad)) 1 2 = 7 ∧
    (okState upsertState
      (register_witnesses sigVerify upsertState 2 batchGoodBad)).witnessRegistry (1, 8) =
      upsertState.witnessRegistry (1, 8) ∧
    meetup_participant_count_vote (okState upsertState
      (register_witnesses sigVerify upsertState 2 batchGoodBad)) 1 2 = 3 ∧
    witness_index (okState ingestState
      (register_witnesses sigVerify ingestState 2 batchGoodBad)) 1 2 = 1 ∧
    (okState ingestState
      (register_witnesses sigVerify ingestState 2 batchGoodBad)).witnessCount = 1 := by
  have h1 := register_witnesses_upsert sigVerify upsertState
    (okState upsertState (register_witnesses sigVerify upsertState 2 batchGoodBad))
    2 batchGoodBad rfl
  have h2 := register_witnesses_upsert sigVerify ingestState
    (okState ingestState (register_witnesses sigVerify ingestState 2 batchGoodBad))
    2 batchGoodBad rfl
  obtain ⟨hA, -, hV⟩ := h1
  obtain ⟨-, hB, -⟩ := h2
  obtain ⟨hc, hi, hj⟩ := hA rfl
  obtain ⟨hi2, hc2⟩ := hB rfl
  exact ⟨hc, hi, hj 8 (by decide), hV (mkWitness claim2 3) (by decide), hi2, hc2⟩

theorem assignFold_fst (s : Ceremonies) (c : Nat) (ps : List Nat) :
    ∀ acc, (ps.foldl (assignStep s c) acc).1 =
      acc.1 ++ ps.map (fun p => participant_registry s c p) := by
  induction ps with
  | nil => intro acc; simp
  | cons p rest ih =>
    intro acc
    rw [List.foldl_cons, ih]
    simp [assignStep]

theorem assignFold_snd (s : Ceremonies) (c : Nat) (ps : List Nat) :
    ∀ acc (k : Nat × Nat), (ps.foldl (assignStep s c) acc).2 k =
      (if k.1 = c ∧ k.2 ∈ ps.map (fun p => participant_registry s c p)
       then some SINGLE_MEETUP_INDEX else acc.2 k) := by
  induction ps with
  | nil => intro acc k; simp
  | cons p rest ih =>
    intro acc k
    rw [List.foldl_cons, ih]
    simp only [List.map_cons, List.mem_cons, assignStep, storPut, Prod.ext_iff]
    split_ifs <;> tauto

/-- C8: a master `next_phase` call from REGISTERING (without u64 overflow
of the participant counter) writes exactly the first
`min(ParticipantCount, 12)` registered participants, in 1-based registry
order, into the meetup registry row of the single meetup, gives each of
them meetup index 1, leaves the meetup-index row of every other account
(in particular of participants at registry positions beyond 12) unwritten,
and sets `MeetupCount = 1`. -/
theorem assign_meetups_spec (s s' : Ceremonies) (ev : List CeremonyEvent)
    (hp : s.currentPhase = CeremonyPhaseType.REGISTERING)
    (hcnt : s.participantCount + 1 < 2 ^ 64)
    (h : next_phase s s.ceremonyMaster = Except.ok (s', ev)) :
    meetup_registry s' s.currentCeremonyIndex SINGLE_MEETUP_INDEX =
      (List.range' 1 (min s.participantCount 12)).map
        (fun p => participant_registry s s.currentCeremonyIndex p) ∧
    (∀ a, a ∈ (List.range' 1 (min s.participantCount 12)).map
        (fun p => participant_registry s s.currentCeremonyIndex p) →
      meetup_index s' s.currentCeremonyIndex a = SINGLE_MEETUP_INDEX) ∧
    (∀ a, a ∉ (List.range' 1 (min s.participantCount 12)).map
        (fun p => participant_registry s s.currentCeremonyIndex p) →
      s'.meetupIndexOf (s.currentCeremonyIndex, a) =
        s.meetupIndexOf (s.currentCeremonyIndex, a)) ∧
    s'.meetupCount = 1 := by
  simp only [next_phase, hp] at h
  rw [if_pos trivial, Except.ok.injEq, Prod.mk.injEq] at h
  obtain ⟨hs, -⟩ := h
  subst hs
  have hmin : min ((s.participantCount + 1) % 2 ^ 64) 13 - 1 =
      min s.participantCount 12 := by
    rw [Nat.mod_eq_of_lt hcnt]; omega
  refine ⟨?_, ?_, ?_, rfl⟩
  · simp only [meetup_registry, assign_meetups, hmin]
    rw [storGet_put_same, assignFold_fst]
    simp
  · intro a ha
    simp only [meetup_index, storGet, assign_meetups, hmin]
    rw [assignFold_snd]
    simp [ha]
  · intro a ha
    simp only [assign_meetups, hmin]
    rw [assignFold_snd]
    simp [ha]

/-- C8 witness: advancing `threeRegisteredState` (participants 10, 11, 12
at positions 1, 2, 3) out of REGISTERING builds the single meetup
[10, 11, 12] in registry order, indexes account 11 at meetup 1, leaves
the unregistered account 99 without a meetup-index row, and sets the
meetup counter to 1. -/
theorem assign_meetups_spec_witness :
    meetup_registry (okStateNP threeRegisteredState
      (next_phase threeRegisteredState 1)) 1 1 = [10, 11, 12] ∧
    meetup_index (okStateNP threeRegisteredState
      (next_phase threeRegisteredState 1)) 1 11 = 1 ∧
    (okStateNP threeRegisteredState
      (next_phase threeRegisteredState 1)).meetupIndexOf (1, 99) = none ∧
    (okStateNP threeRegisteredState (next_phase threeRegisteredState 1)).meetupCount = 1 := by
  obtain ⟨h1, h2, h3, h4⟩ := assign_meetups_spec threeRegisteredState
    (okStateNP threeRegisteredState (next_phase threeRegisteredState 1))
    [CeremonyEvent.PhaseChangedTo CeremonyPhaseType.ASSIGNING] rfl (by decide) rfl
  have e : threeRegisteredState.currentCeremonyIndex = 1 := rfl
  have e2 : SINGLE_MEETUP_INDEX = 1 := rfl
  rw [e] at h1 h3
  rw [e2] at h1
  refine ⟨?_, h2 11 (by decide), ?_, h4⟩
  · rw [h1]; decide
  · rw [h3 99 (by decide)]; rfl

theorem ballot_some_min3 (s : Ceremonies) (m nc nh : Nat)
    (h : ballot_meetup_n_votes s m = some (nc, nh)) : 3 ≤ nh := by
  simp only [ballot_meetup_n_votes] at h
  split at h
  · exact absurd h (by simp)
  · split at h
    · exact absurd h (by simp)
    · split at h
      · exact absurd h (by simp)
      · rename_i hcond
        rw [Option.some.injEq] at h
        rw [h] at hcond
        exact Nat.le_of_not_lt hcond

theorem sameExceptBalances_refl (s : Ceremonies) : sameExceptBalances s s :=
  ⟨rfl, rfl, rfl, rfl, rfl, rfl, rfl, rfl, rfl, rfl, rfl, rfl, rfl, rfl⟩

theorem sameExceptBalances_trans (a b c : Ceremonies)
    (h1 : sameExceptBalances a b) (h2 : sameExceptBalances b c) :
    sameExceptBalances a c := by
  obtain ⟨e1, e2, e3, e4, e5, e6, e7, e8, e9, e10, e11, e12, e13, e14⟩ := h1
  obtain ⟨f1, f2, f3, f4, f5, f6, f7, f8, f9, f10, f11, f12, f13, f14⟩ := h2
  exact ⟨e1.trans f1, e2.trans f2, e3.trans f3, e4.trans f4, e5.trans f5,
    e6.trans f6, e7.trans f7, e8.trans f8, e9.trans f9, e10.trans f10,
    e11.trans f11, e12.trans f12, e13.trans f13, e14.trans f14⟩

theorem rewardStep_same (c nc nh r : Nat) (st : Ceremonies) (p : AccountId) :
    sameExceptBalances st (rewardStep c nc nh r st p) := by
  unfold rewardStep
  split
  · exact ⟨rfl, rfl, rfl, rfl, rfl, rfl, rfl, rfl, rfl, rfl, rfl, rfl, rfl, rfl⟩
  · exact sameExceptBalances_refl st

theorem rewardFold_same (c nc nh r : Nat) (l : List AccountId) :
    ∀ st : Ceremonies,
      sameExceptBalances st (l.foldl (rewardStep c nc nh r) st) := by
  induction l with
  | nil => intro st; exact sameExceptBalances_refl st
  | cons p rest ih =>
    intro st
    rw [List.foldl_cons]
    exact sameExceptBalances_trans _ _ _ (rewardStep_same c nc nh r st p)
      (ih (rewardStep c nc nh r st p))

theorem participantEligible_congr (s t : Ceremonies) (c nc nh : Nat)
    (p : AccountId) (h : sameExceptBalances s t) :
    participantEligible t c nc nh p = participantEligible s c nc nh p := by
  obtain ⟨-, -, -, -, -, -, hwr, hwi, -, hvote, -, -, -, -⟩ := h
  unfold participantEligible meetup_participant_count_vote witness_registry witness_index
  rw [hwr, hwi, hvote]

theorem rewardFold_balances (c nc nh r : Nat) (l : List AccountId) :
    ∀ (st : Ceremonies) (a : AccountId), l.Nodup →
      (l.foldl (rewardStep c nc nh r) st).balances a =
        (if a ∈ l ∧ participantEligible st c nc nh a = true
         then st.balances a + r else st.balances a) := by
  induction l with
  | nil => intro st a _; simp
  | cons p rest ih =>
    intro st a hnd
    rw [List.nodup_cons] at hnd
    rw [List.foldl_cons, ih _ _ hnd.2,
      participantEligible_congr st _ c nc nh a (rewardStep_same c nc nh r st p)]
    by_cases hap : a = p
    · subst hap
      have hnr : a ∉ rest := hnd.1
      by_cases he : participantEligible st c nc nh a = true
      · simp [rewardStep, he, hnr]
      · simp [rewardStep, he, hnr]
    · have hstep : (rewardStep c nc nh r st p).balances a = st.balances a := by
        unfold rewardStep
        split
        · simp [hap]
        · rfl
      rw [hstep]
      simp [hap]

/-- C1: with exactly one meetup (whose member list has no duplicates, as
registration guarantees) at the end of WITNESSING, when the ballot yields
a winner `(n_confirmed, n_honest)` the tally `n_honest` is at least 3 and
`issue_rewards` succeeds, raising by `CeremonyReward` the free balance of
exactly those meetup members whose own count vote equals `n_confirmed`,
whose stored witness list is non-empty of size at least `n_honest - 1`,
and at least `n_honest - 1` of whose witnesses reciprocally list them;
every other account keeps its balance and all non-balance state (the
seven registries, the three counters and the configuration) is unchanged.
When the ballot yields no winner (plurality tally below 3, or no non-zero
vote at all), `issue_rewards` returns the state completely unchanged. -/
theorem issue_rewards_spec (s : Ceremonies)
    (hp : s.currentPhase = CeremonyPhaseType.WITNESSING)
    (hm : s.meetupCount = 1)
    (hnd : (meetup_registry s s.currentCeremonyIndex SINGLE_MEETUP_INDEX).Nodup) :
    (∀ nc nh, ballot_meetup_n_votes s SINGLE_MEETUP_INDEX = some (nc, nh) →
      3 ≤ nh ∧
      ∃ s', issue_rewards s = Except.ok s' ∧ sameExceptBalances s s' ∧
        ∀ a, s'.balances a =
          (if a ∈ meetup_registry s s.currentCeremonyIndex SINGLE_MEETUP_INDEX ∧
              participantEligible s s.currentCeremonyIndex nc nh a = true
           then s.balances a + s.ceremonyReward else s.balances a)) ∧
    (ballot_meetup_n_votes s SINGLE_MEETUP_INDEX = none →
      issue_rewards s = Except.ok s) := by
  constructor
  · intro nc nh hb
    refine ⟨ballot_some_min3 s SINGLE_MEETUP_INDEX nc nh hb,
      (meetup_registry s s.currentCeremonyIndex SINGLE_MEETUP_INDEX).foldl
        (rewardStep s.currentCeremonyIndex nc nh s.ceremonyReward) s, ?_, ?_, ?_⟩
    · simp [issue_rewards, hp, hm, hb]
    · exact rewardFold_same _ _ _ _ _ s
    · intro a
      exact rewardFold_balances _ _ _ _ _ s a hnd
  · intro hb
    simp [issue_rewards, hp, hm, hb]

/-- C1 witness: in `rewardState` (votes all 3, fully reciprocal witness
records) the ballot returns `(3, 3)` and every member earns the reward
1000 while the outsider account 9 and the witness counter are untouched;
in `lowTallyState` every tally is 2 < 3 and the state is returned
unchanged. -/
theorem issue_rewards_spec_witness :
    (okState rewardState (issue_rewards rewardState)).balances 1 = 1000 ∧
    (okState rewardState (issue_rewards rewardState)).balances 9 = 0 ∧
    rewardState.witnessCount =
      (okState rewardState (issue_rewards rewardState)).witnessCount ∧
    issue_rewards lowTallyState = Except.ok lowTallyState := by
  obtain ⟨hmin3, s', heq, hsame, hbal⟩ :=
    (issue_rewards_spec rewardState rfl rfl (by decide)).1 3 3 (by decide)
  have hok : okState rewardState (issue_rewards rewardState) = s' := by
    rw [heq]; rfl
  refine ⟨?_, ?_, ?_, (issue_rewards_spec lowTallyState rfl rfl (by decide)).2 (by decide)⟩
  · rw [hok, hbal 1]; decide
  · rw [hok, hbal 9]; decide
  · rw [hok]
    exact hsame.2.2.2.2.2.2.2.2.1

theorem firstIdx_lt_length (v : Nat) (vs : List Nat) (h : v ∈ vs) :
    firstIdx v vs < vs.length := by
  induction vs with
  | nil => cases h
  | cons x xs ih =>
    by_cases hx : x = v
    · simp [firstIdx, hx]
    · rw [List.mem_cons] at h
      rcases h with h | h
    
      · exact absurd h.symm hx
      · simp only [firstIdx, if_neg hx, List.length_cons]
        exact Nat.succ_lt_succ (ih h)

theorem firstIdx_append_of_mem (v : Nat) (vs ys : List Nat) (h : v ∈ vs) :
    firstIdx v (vs ++ ys) = firstIdx v vs := by
  induction vs with
  | nil => cases h
  | cons x xs ih =>
    by_cases hx : x = v
    · simp [firstIdx, hx]
    · rw [List.mem_cons] at h
      rcases h with h | h
      · exact absurd h.symm hx
      · simp only [List.cons_append, firstIdx, if_neg hx]
        exact congrArg (fun t => t + 1) (ih h)

theorem firstIdx_append_self (v : Nat) (vs : List Nat) (h : v ∉ vs) :
    firstIdx v (vs ++ [v]) = vs.length := by
  induction vs with
  | nil => simp [firstIdx]
  | cons x xs ih =>
    rw [List.mem_cons] at h
    push_neg at h
    simp only [List.cons_append, firstIdx, if_neg (Ne.symm h.1 : ¬x = v),
      List.length_cons]
    exact congrArg (fun t => t + 1) (ih h.2)

theorem countIn_append_one (vs : List Nat) (v x : Nat) :
    countIn (vs ++ [v]) x = countIn vs x + (if x = v then 1 else 0) := by
  unfold countIn
  rw [List.filter_append]
  by_cases hx : x = v
  · simp [hx]
  · simp [hx, Ne.symm hx]

theorem countIn_eq_zero_of_not_mem (vs : List Nat) (v : Nat) (h : v ∉ vs) :
    countIn vs v = 0 := by
  unfold countIn
  rw [List.length_eq_zero, List.filter_eq_nil_iff]
  intro a ha
  simp only [decide_eq_true_eq]
  intro hav
  exact h (hav ▸ ha)

theorem mem_of_countIn_pos (vs : List Nat) (v : Nat) (h : 0 < countIn vs v) :
    v ∈ vs := by
  by_contra hmem
  rw [countIn_eq_zero_of_not_mem vs v hmem] at h
  exact Nat.lt_irrefl 0 h

theorem bumpFirst_found (v : Nat) (l : List (Nat × Nat)) :
    (bumpFirst v l).2 = true ↔ v ∈ l.map Prod.fst := by
  induction l with
  | nil => simp [bumpFirst]
  | cons nc rest ih =>
    by_cases h : nc.1 = v
    · simp [bumpFirst, h]
    · simp [bumpFirst, h, ih, Ne.symm h]

theorem map_eq_self_of_eq {α : Type} (f : α → α) (l : List α)
    (h : ∀ x ∈ l, f x = x) : l.map f = l := by
  induction l with
  | nil => rfl
  | cons a as ih =>
    rw [List.map_cons, h a (List.mem_cons_self a as),
      ih (fun x hx => h x (List.mem_cons_of_mem a hx))]

theorem bumpFirst_eq_map (v : Nat) (l : List (Nat × Nat))
    (hnd : (l.map Prod.fst).Nodup) :
    (bumpFirst v l).1 =
      l.map (fun y => if y.1 = v then (y.1, y.2 + 1) else y) := by
  induction l with
  | nil => rfl
  | cons nc rest ih =>
    rw [List.map_cons, List.nodup_cons] at hnd
    by_cases h : nc.1 = v
    · have hvrest : ∀ y ∈ rest, (if y.1 = v then (y.1, y.2 + 1) else y) = y := by
        intro y hy
        have hmem : y.1 ∈ rest.map Prod.fst := List.mem_map_of_mem Prod.fst hy
        by_cases hyv : y.1 = v
        · rw [hyv, ← h] at hmem
          exact absurd hmem hnd.1
        · simp [hyv]
      show (if nc.1 = v then ((nc.1, nc.2 + 1) :: rest, true)
        else (nc :: (bumpFirst v rest).1, (bumpFirst v rest).2)).1 = _
      rw [if_pos h, List.map_cons, map_eq_self_of_eq _ rest hvrest]
      simp [h]
    · show (if nc.1 = v then ((nc.1, nc.2 + 1) :: rest, true)
        else (nc :: (bumpFirst v rest).1, (bumpFirst v rest).2)).1 = _
      rw [if_neg h, List.map_cons, ← ih hnd.2]
      simp [h]

theorem map_comp_fst_bump (v : Nat) (cands : List (Nat × Nat)) :
    (cands.map (fun y => if y.1 = v then (y.1, y.2 + 1) else y)).map Prod.fst =
      cands.map Prod.fst := by
  induction cands with
  | nil => rfl
  | cons y ys ih =>
    simp only [List.map_cons, ih]
    by_cases h : y.1 = v <;> simp [h]

theorem tallyStep_inv (vs : List Nat) (v : Nat) (cands : List (Nat × Nat))
    (h1 : ∀ x ∈ cands, x.1 ≠ 0 ∧ x.2 = countIn vs x.1 ∧ x.1 ∈ vs)
    (h2 : ∀ u, u ≠ 0 → u ∈ vs → u ∈ cands.map Prod.fst)
    (h3 : (cands.map Prod.fst).Pairwise (fun a b => firstIdx b vs < firstIdx a vs)) :
    (∀ x ∈ tallyStep cands v,
      x.1 ≠ 0 ∧ x.2 = countIn (vs ++ [v]) x.1 ∧ x.1 ∈ vs ++ [v]) ∧
    (∀ u, u ≠ 0 → u ∈ vs ++ [v] → u ∈ (tallyStep cands v).map Prod.fst) ∧
    ((tallyStep cands v).map Prod.fst).Pairwise
      (fun a b => firstIdx b (vs ++ [v]) < firstIdx a (vs ++ [v])) := by
  have hnd : (cands.map Prod.fst).Nodup := by
    refine List.Pairwise.imp ?_ h3
    intro a b hr heq
    rw [heq] at hr
    exact Nat.lt_irrefl _ hr
  have hfi : ∀ a ∈ cands.map Prod.fst, firstIdx a (vs ++ [v]) = firstIdx a vs := by
    intro a ha
    obtain ⟨x, hx, hxa⟩ := List.mem_map.mp ha
    exact firstIdx_append_of_mem a vs [v] (hxa ▸ (h1 x hx).2.2)
  by_cases hv0 : v = 0
  · have ht : tallyStep cands v = cands := by simp [tallyStep, hv0]
    rw [ht]
    refine ⟨?_, ?_, ?_⟩
    · intro x hx
      obtain ⟨hne, hcnt, hmem⟩ := h1 x hx
      refine ⟨hne, ?_, List.mem_append_left _ hmem⟩
      rw [countIn_append_one, if_neg (hv0 ▸ hne), Nat.add_zero, hcnt]
    · intro u hu humem
      rcases List.mem_append.mp humem with hm | hm
      · exact h2 u hu hm
      · rw [List.mem_singleton] at hm
        exact absurd (hm.trans hv0) hu
    · refine List.Pairwise.imp_of_mem ?_ h3
      intro a b ha hb hr
      rw [hfi a ha, hfi b hb]
      exact hr
  · by_cases hfb : v ∈ cands.map Prod.fst
    · have ht : tallyStep cands v =
          cands.map (fun y => if y.1 = v then (y.1, y.2 + 1) else y) := by
        unfold tallyStep
        rw [if_neg hv0]
        show (if (bumpFirst v cands).2 = true then (bumpFirst v cands).1
          else (v, 1) :: cands) = _
        rw [if_pos ((bumpFirst_found v cands).mpr hfb)]
        exact bumpFirst_eq_map v cands hnd
      rw [ht]
      refine ⟨?_, ?_, ?_⟩
      · intro x hx
        obtain ⟨y, hy, hgy⟩ := List.mem_map.mp hx
        obtain ⟨hne, hcnt, hmem⟩ := h1 y hy
        by_cases hyv : y.1 = v
        · rw [if_pos hyv] at hgy
          refine ⟨by rw [← hgy]; exact hne, ?_, by rw [← hgy]; exact List.mem_append_left _ hmem⟩
          rw [← hgy]
          show y.2 + 1 = countIn (vs ++ [v]) y.1
          rw [countIn_append_one, if_pos hyv, hcnt]
        · rw [if_neg hyv] at hgy
          rw [← hgy]
          refine ⟨hne, ?_, List.mem_append_left _ hmem⟩
          rw [countIn_append_one, if_neg hyv, Nat.add_zero, hcnt]
      · intro u hu humem
        rw [map_comp_fst_bump]
        rcases List.mem_append.mp humem with hm | hm
        · exact h2 u hu hm
        · rw [List.mem_singleton] at hm
          rw [hm]
          exact hfb
      · rw [map_comp_fst_bump]
        refine List.Pairwise.imp_of_mem ?_ h3
        intro a b ha hb hr
        rw [hfi a ha, hfi b hb]
        exact hr
    · have hvnot : v ∉ vs := fun hvvs => hfb (h2 v hv0 hvvs)
      have ht : tallyStep cands v = (v, 1) :: cands := by
        unfold tallyStep
        rw [if_neg hv0]
        show (if (bumpFirst v cands).2 = true then (bumpFirst v cands).1
          else (v, 1) :: cands) = _
        rw [if_neg (by rw [bumpFirst_found]; exact hfb)]
      rw [ht]
      refine ⟨?_, ?_, ?_⟩
      · intro x hx
        rcases List.mem_cons.mp hx with hx | hx
        · subst hx
          refine ⟨hv0, ?_, List.mem_append_right _ (List.mem_singleton.mpr rfl)⟩
          show 1 = countIn (vs ++ [v]) v
          rw [countIn_append_one, if_pos rfl, countIn_eq_zero_of_not_mem vs v hvnot]
        · obtain ⟨hne, hcnt, hmem⟩ := h1 x hx
          have hxv : x.1 ≠ v := fun hxv => hvnot (hxv ▸ hmem)
          refine ⟨hne, ?_, List.mem_append_left _ hmem⟩
          rw [countIn_append_one, if_neg hxv, Nat.add_zero, hcnt]
      · intro u hu humem
        rw [List.map_cons]
        rcases List.mem_append.mp humem with hm | hm
        · exact List.mem_cons_of_mem _ (h2 u hu hm)
        · rw [List.mem_singleton] at hm
          rw [hm]
          exact List.mem_cons_self _ _
      · rw [List.map_cons, List.pairwise_cons]
        constructor
        · intro b hb
          obtain ⟨x, hx, hxb⟩ := List.mem_map.mp hb
          have hbvs : b ∈ vs := hxb ▸ (h1 x hx).2.2
          rw [hfi b hb, firstIdx_append_self v vs hvnot]
          exact firstIdx_lt_length b vs hbvs
        · refine List.Pairwise.imp_of_mem ?_ h3
          intro a b ha hb hr
          rw [hfi a ha, hfi b hb]
          exact hr

theorem tallyFold_inv (vs : List Nat) :
    (∀ x ∈ vs.foldl tallyStep [], x.1 ≠ 0 ∧ x.2 = countIn vs x.1 ∧ x.1 ∈ vs) ∧
    (∀ u, u ≠ 0 → u ∈ vs → u ∈ (vs.foldl tallyStep []).map Prod.fst) ∧
    ((vs.foldl tallyStep []).map Prod.fst).Pairwise
      (fun a b => firstIdx b vs < firstIdx a vs) := by
  induction vs using List.reverseRecOn with
  | nil => exact ⟨by simp, by simp, by simp⟩
  | append_singleton xs v ih =>
    rw [List.foldl_append, List.foldl_cons, List.foldl_nil]
    exact tallyStep_inv xs v _ ih.1 ih.2.1 ih.2.2

theorem firstMax_eq_none (l : List (Nat × Nat)) : firstMax l = none ↔ l = [] := by
  cases l with
  | nil => simp [firstMax]
  | cons x xs =>
    have hsome : ∃ m, firstMax (x :: xs) = some m := by
      show ∃ m, (match firstMax xs with
        | none => some x
        | some m => if m.2 ≤ x.2 then some x else some m) = some m
      cases firstMax xs with
      | none => exact ⟨x, rfl⟩
      | some m' =>
        by_cases hc : m'.2 ≤ x.2
        · exact ⟨x, by simp [hc]⟩
        · exact ⟨m', by simp [hc]⟩
    obtain ⟨m, hm⟩ := hsome
    simp [hm]

theorem firstMax_le (l : List (Nat × Nat)) (m : Nat × Nat) (h : firstMax l = some m) :
    ∀ y ∈ l, y.2 ≤ m.2 := by
  induction l generalizing m with
  | nil => cases h
  | cons x xs ih =>
    intro y hy
    simp only [firstMax] at h
    cases hfx : firstMax xs with
    | none =>
      rw [hfx] at h
      have h' : some x = some m := h
      rw [Option.some.injEq] at h'
      subst h'
      rcases List.mem_cons.mp hy with hy | hy
      · exact hy ▸ Nat.le_refl _
      · rw [(firstMax_eq_none xs).mp hfx] at hy
        cases hy
    | some m' =>
      rw [hfx] at h
      have h' : (if m'.2 ≤ x.2 then some x else some m') = some m := h
      by_cases hc : m'.2 ≤ x.2
      · rw [if_pos hc, Option.some.injEq] at h'
        subst h'
        rcases List.mem_cons.mp hy with hy | hy
        · exact hy ▸ Nat.le_refl _
        · exact Nat.le_trans (ih m' hfx y hy) hc
      · rw [if_neg hc, Option.some.injEq] at h'
        subst h'
        rcases List.mem_cons.mp hy with hy | hy
        · rw [hy]
          exact Nat.le_of_lt (Nat.lt_of_not_le hc)
        · exact ih m' hfx y hy

theorem firstMax_split (l : List (Nat × Nat)) (m : Nat × Nat) (h : firstMax l = some m) :
    ∃ pre post, l = pre ++ m :: post ∧ ∀ y ∈ pre, y.2 < m.2 := by
  induction l generalizing m with
  | nil => cases h
  | cons x xs ih =>
    simp only [firstMax] at h
    cases hfx : firstMax xs with
    | none =>
      rw [hfx] at h
      have h' : some x = some m := h
      rw [Option.some.injEq] at h'
      subst h'
      exact ⟨[], xs, rfl, by simp⟩
    | some m' =>
      rw [hfx] at h
      have h' : (if m'.2 ≤ x.2 then some x else some m') = some m := h
      by_cases hc : m'.2 ≤ x.2
      · rw [if_pos hc, Option.some.injEq] at h'
        subst h'
        exact ⟨[], xs, rfl, by simp⟩
      · rw [if_neg hc, Option.some.injEq] at h'
        subst h'
        obtain ⟨pre, post, heq, hlt⟩ := ih m' hfx
        refine ⟨x :: pre, post, by rw [heq]; rfl, ?_⟩
        intro y hy
        rcases List.mem_cons.mp hy with hy | hy
        · rw [hy]
          exact Nat.lt_of_not_le hc
        · exact hlt y hy

theorem sortByCountDesc_head (l : List (Nat × Nat)) :
    (sortByCountDesc l).head? = firstMax l := by
  induction l with
  | nil => rfl
  | cons x xs ih =>
    show (insertByCountDesc x (sortByCountDesc xs)).head? = _
    rcases hs : sortByCountDesc xs with _ | ⟨y, ys⟩
    · rw [hs] at ih
      simp only [firstMax, ← ih]
      rfl
    · rw [hs] at ih
      simp only [firstMax, ← ih]
      by_cases hc : y.2 ≤ x.2
      · simp [insertByCountDesc, hc]
      · simp [insertByCountDesc, hc]

theorem ballot_some_firstMax (s : Ceremonies) (midx w c : Nat)
    (hb : ballot_meetup_n_votes s midx = some (w, c)) :
    firstMax ((votesOf s midx).foldl tallyStep []) = some (w, c) ∧ 3 ≤ c := by
  have hfold : (votesOf s midx).foldl tallyStep [] =
      (meetup_registry s s.currentCeremonyIndex midx).foldl
        (fun cs p => tallyStep cs
          (meetup_participant_count_vote s s.currentCeremonyIndex p)) [] := by
    unfold votesOf
    exact List.foldl_map _ _ _ _
  simp only [ballot_meetup_n_votes] at hb
  rw [← hfold] at hb
  split at hb
  · exact absurd hb (by simp)
  · split at hb
    · exact absurd hb (by simp)
    · rename_i hne hmatch top rest hsort
      split at hb
      · exact absurd hb (by simp)
      · rename_i hlt
        rw [Option.some.injEq] at hb
        have hhead : (sortByCountDesc ((votesOf s midx).foldl tallyStep [])).head? =
            some (w, c) := by
          rw [hsort, hb]
          rfl
        rw [sortByCountDesc_head] at hhead
        rw [hb] at hlt
        exact ⟨hhead, Nat.le_of_not_lt hlt⟩

/-- C2 counterexample: in `tieState` the meetup votes are, in member
order, 5, 5, 5, 4, 4, 4 — the values 5 and 4 tie with top tally 3 and 5
is the value first observed while iterating the member list — yet the
ballot returns the later-observed value 4, not 5: new candidates are
inserted at the head of the tally list and the stable sort keeps them
there, so the first-inserted-wins reading is false. -/
theorem ballot_tie_break_cex :
    votesOf tieState SINGLE_MEETUP_INDEX = [5, 5, 5, 4, 4, 4] ∧
    countVotes tieState SINGLE_MEETUP_INDEX 5 = 3 ∧
    countVotes tieState SINGLE_MEETUP_INDEX 4 = 3 ∧
    firstIdx 5 (votesOf tieState SINGLE_MEETUP_INDEX) <
      firstIdx 4 (votesOf tieState SINGLE_MEETUP_INDEX) ∧
    ballot_meetup_n_votes tieState SINGLE_MEETUP_INDEX = some (4, 3) ∧
    ballot_meetup_n_votes tieState SINGLE_MEETUP_INDEX ≠ some (5, 3) :=
  ⟨by decide, by decide, by decide, by decide, by decide, by decide⟩

/-- C2 amended: when the ballot of a meetup returns a winner `(w, c)`,
then `w`'s tally is `c` with `c ≥ 3`, and for every other vote value `u`
tied at the same tally `c`, the winner `w` is the tied value whose FIRST
observation comes LATEST while iterating the meetup member list (the
first occurrence of every tied competitor `u` strictly precedes the first
occurrence of `w` in the vote sequence) — not the value first observed,
as the spec states. -/
theorem ballot_tie_break (s : Ceremonies) (midx w c u : Nat)
    (hb : ballot_meetup_n_votes s midx = some (w, c))
    (hu0 : u ≠ 0) (huw : u ≠ w)
    (hcu : countVotes s midx u = c) :
    countVotes s midx w = c ∧ 3 ≤ c ∧
    firstIdx u (votesOf s midx) < firstIdx w (votesOf s midx) := by
  obtain ⟨hfm, h3c⟩ := ballot_some_firstMax s midx w c hb
  obtain ⟨h1, h2, h3⟩ := tallyFold_inv (votesOf s midx)
  obtain ⟨pre, post, hsplit, hpre⟩ :=
    firstMax_split ((votesOf s midx).foldl tallyStep []) (w, c) hfm
  have hwmem : (w, c) ∈ (votesOf s midx).foldl tallyStep [] := by
    rw [hsplit]
    exact List.mem_append_right _ (List.mem_cons_self _ _)
  obtain ⟨hw0, hwc, hwvs⟩ := h1 (w, c) hwmem
  have hcu' : countIn (votesOf s midx) u = c := hcu
  refine ⟨hwc.symm, h3c, ?_⟩
  have huvs : u ∈ votesOf s midx :=
    mem_of_countIn_pos (votesOf s midx) u (by omega)
  obtain ⟨e, hemem, he1⟩ := List.mem_map.mp (h2 u hu0 huvs)
  obtain ⟨he0, hecnt, hevs⟩ := h1 e hemem
  have he2 : e.2 = c := by rw [hecnt, he1, hcu']
  have hepost : e ∈ post := by
    rw [hsplit] at hemem
    rcases List.mem_append.mp hemem with hm | hm
    · exact absurd he2 (Nat.ne_of_lt (hpre e hm))
    · rcases List.mem_cons.mp hm with hm | hm
      · exact absurd (by rw [hm] : e.1 = w) (he1 ▸ huw)
      · exact hm
  rw [hsplit, List.map_append, List.map_cons] at h3
  obtain ⟨-, h3r, -⟩ := List.pairwise_append.mp h3
  obtain ⟨hww, -⟩ := List.pairwise_cons.mp h3r
  have := hww e.1 (List.mem_map_of_mem Prod.fst hepost)
  rw [he1] at this
  exact this

/-- C2 amended witness: in `tieState` (votes 5, 5, 5, 4, 4, 4) the ballot
winner is `(4, 3)`; the tied competitor 5 has tally 3 as well, and its
first occurrence (position 0) precedes the winner's first occurrence
(position 3). -/
theorem ballot_tie_break_witness :
    countVotes tieState SINGLE_MEETUP_INDEX 4 = 3 ∧ 3 ≤ 3 ∧
    firstIdx 5 (votesOf tieState SINGLE_MEETUP_INDEX) <
      firstIdx 4 (votesOf tieState SINGLE_MEETUP_INDEX) :=
  ballot_tie_break tieState SINGLE_MEETUP_INDEX 4 3 5 (by decide) (by decide)
    (by decide) (by decide)
